import Mathlib

/-!
Verification development for a repository of document-store example helpers
(src/schema_examples.py).  The file embeds, as executable Lean definitions,

* the JSON-like value model used by the payload-builder functions,
* each payload-builder function of the source file (the pair it passes to
  the document-store layer), and
* a model of the generic DocumentStore CRUD layer (module `database`), which
  is imported by the source file but is not part of the repository; that
  layer is modelled from the specification.

Theorems about these definitions settle the specification claims.
-/

/-- A schema-less document value: null, boolean, number, string, ordered
sequence, or nested mapping.  Numbers are modelled exactly, as rationals. -/
inductive Value where
  | vNull : Value
  | vBool (b : Bool) : Value
  | vNum (q : Rat) : Value
  | vStr (s : String) : Value
  | vList (items : List Value) : Value
  | vDoc (fields : List (String × Value)) : Value

/-- A document body: an ordered list of field-name/value pairs.  Lookup takes
the first binding of a key, so earlier bindings shadow later ones. -/
abbrev Doc := List (String × Value)

mutual

/-- Structural boolean equality on values (lists and nested mappings are
compared element by element). -/
def Value.beq : Value → Value → Bool
  | .vNull, .vNull => true
  | .vBool a, .vBool b => a == b
  | .vNum a, .vNum b => a == b
  | .vStr a, .vStr b => a == b
  | .vList a, .vList b => Value.beqL a b
  | .vDoc a, .vDoc b => Value.beqD a b
  | _, _ => false

/-- Boolean equality on lists of values. -/
def Value.beqL : List Value → List Value → Bool
  | [], [] => true
  | x :: xs, y :: ys => Value.beq x y && Value.beqL xs ys
  | _, _ => false

/-- Boolean equality on field lists. -/
def Value.beqD : List (String × Value) → List (String × Value) → Bool
  | [], [] => true
  | (k, x) :: xs, (l, y) :: ys => k == l && Value.beq x y && Value.beqD xs ys
  | _, _ => false

end

/-- First-binding lookup of a field in a document body. -/
def lookupField (d : Doc) (k : String) : Option Value :=
  match d with
  | [] => none
  | (k', v) :: rest => if k' = k then some v else lookupField rest k

/-- A value is a nested mapping. -/
def Value.isNested : Value → Bool
  | .vDoc _ => true
  | _ => false

/-- A document body is flat when none of its values is a nested mapping. -/
def isFlatDoc (d : Doc) : Bool := d.all (fun kv => !kv.2.isNested)

/-- Python truthiness-based defaulting on list arguments, as in the source's
idiom `tags or []`: `None` and the empty list are falsy and give the
default. -/
def pyOrList (x : Option (List Value)) (dflt : List Value) : List Value :=
  match x with
  | none => dflt
  | some l => if l.isEmpty then dflt else l

/-- Python truthiness-based defaulting on dict arguments, as in the source's
idiom `metadata or {}`. -/
def pyOrDict (x : Option Doc) (dflt : Doc) : Doc :=
  match x with
  | none => dflt
  | some d => if d.isEmpty then dflt else d

/-- A Python optional string argument, stored as null when absent. -/
def optStr : Option String → Value
  | none => .vNull
  | some s => .vStr s

/-- Embeds create_user (src/schema_examples.py, lines 15-32): the
(collection, data) pair the function passes to create_document. -/
def create_user (name email password_hash : String) : String × Doc :=
  ("users",
    [("name", .vStr name),
     ("email", .vStr email),
     ("password_hash", .vStr password_hash),
     ("profile", .vDoc [("avatar_url", .vNull), ("bio", .vStr ""), ("location", .vStr "")]),
     ("settings", .vDoc [("email_notifications", .vBool true), ("dark_mode", .vBool false)]),
     ("status", .vStr "active")])

/-- Embeds create_blog_post (lines 43-56): the (collection, data) pair the
function passes to create_document.  The slug is the title lowercased with
spaces replaced by dashes; absent or empty tags default to the empty list
via Python's `or`. -/
def create_blog_post (title content author_id : String) (tags : Option (List Value)) :
    String × Doc :=
  ("posts",
    [("title", .vStr title),
     ("content", .vStr content),
     ("author_id", .vStr author_id),
     ("slug", .vStr ((title.toLower).replace " " "-")),
     ("tags", .vList (pyOrList tags [])),
     ("status", .vStr "draft"),
     ("view_count", .vNum 0),
     ("likes", .vNum 0),
     ("comments", .vList [])])

/-- Embeds add_comment_to_post (lines 58-76).  The function does not call the
DocumentStore layer: it builds a comment document and pushes it onto the
post's comments array through the raw handle db.posts.update_one, returning
whether a post was modified.  The generated ObjectId string, the current
time and the raw call's modified count enter as parameters. -/
def add_comment_to_post (post_id author_id comment_text : String)
    (oid : String) (now : Value) (modified_count : Nat) : Doc × Bool :=
  ([("id", .vStr oid),
    ("author_id", .vStr author_id),
    ("text", .vStr comment_text),
    ("created_at", now),
    ("likes", .vNum 0)],
   decide (0 < modified_count))

/-- Embeds create_product (lines 82-103): the (collection, data) pair the
function passes to create_document.  The timestamp string used in the SKU
enters as a parameter. -/
def create_product (name : String) (price : Rat) (description category : String)
    (nowStr : String) : String × Doc :=
  ("products",
    [("name", .vStr name),
     ("price", .vNum price),
     ("description", .vStr description),
     ("category", .vStr category),
     ("sku", .vStr ("PROD-" ++ nowStr)),
     ("inventory", .vDoc [("stock", .vNum 0), ("reserved", .vNum 0), ("available", .vNum 0)]),
     ("images", .vList []),
     ("attributes", .vDoc []),
     ("status", .vStr "active"),
     ("rating", .vDoc [("average", .vNum 0), ("count", .vNum 0)])])

/-- The cost contribution of one order item: its "price" field times its
"quantity" field, defined when the item is a mapping carrying numeric
values under both keys (otherwise the source raises a TypeError/KeyError). -/
def itemCost (item : Value) : Option Rat :=
  match item with
  | .vDoc fields =>
    match lookupField fields "price", lookupField fields "quantity" with
    | some (.vNum p), some (.vNum q) => some (p * q)
    | _, _ => none
  | _ => none

/-- Embeds the total computed by create_order (line 107):
`sum(item["price"] * item["quantity"] for item in items)`, a left fold of
addition starting from 0, failing when any item is malformed. -/
def orderTotal (items : List Value) : Option Rat :=
  items.foldl
    (fun acc it =>
      match acc, itemCost it with
      | some s, some c => some (s + c)
      | _, _ => none)
    (some 0)

/-- Embeds create_order (lines 105-127): the (collection, data) pair the
function passes to create_document, or none when the item total cannot be
computed.  The timestamp string used in the order number enters as a
parameter. -/
def create_order (user_id : String) (items : List Value) (shipping_address : Value)
    (nowStr : String) : Option (String × Doc) :=
  match orderTotal items with
  | none => none
  | some total =>
    some ("orders",
      [("user_id", .vStr user_id),
       ("order_number", .vStr ("ORD-" ++ nowStr)),
       ("items", .vList items),
       ("total_amount", .vNum total),
       ("shipping_address", shipping_address),
       ("status", .vStr "pending"),
       ("payment", .vDoc [("method", .vNull), ("status", .vStr "pending"),
                          ("transaction_id", .vNull)]),
       ("tracking", .vDoc [("carrier", .vNull), ("tracking_number", .vNull),
                           ("status", .vStr "processing")])])

/-- Embeds create_project (lines 133-149): the (collection, data) pair the
function passes to create_document. -/
def create_project (name description owner_id : String) : String × Doc :=
  ("projects",
    [("name", .vStr name),
     ("description", .vStr description),
     ("owner_id", .vStr owner_id),
     ("members", .vList [.vStr owner_id]),
     ("status", .vStr "active"),
     ("progress", .vNum 0),
     ("due_date", .vNull),
     ("tags", .vList []),
     ("settings", .vDoc [("is_public", .vBool false), ("allow_comments", .vBool true)])])

/-- Embeds create_task (lines 151-169): the (collection, data) pair the
function passes to create_document. -/
def create_task (project_id title description : String) (assignee_id : Option String) :
    String × Doc :=
  ("tasks",
    [("project_id", .vStr project_id),
     ("title", .vStr title),
     ("description", .vStr description),
     ("assignee_id", optStr assignee_id),
     ("status", .vStr "todo"),
     ("priority", .vStr "medium"),
     ("labels", .vList []),
     ("due_date", .vNull),
     ("time_tracking", .vDoc [("estimated_hours", .vNum 0), ("logged_hours", .vNum 0)]),
     ("checklist", .vList []),
     ("attachments", .vList [])])

/-- Embeds create_chat_room (lines 175-189): the (collection, data) pair the
function passes to create_document.  The current time enters as a
parameter. -/
def create_chat_room (name type : String) (members : Option (List Value)) (now : Value) :
    String × Doc :=
  ("chat_rooms",
    [("name", .vStr name),
     ("type", .vStr type),
     ("members", .vList (pyOrList members [])),
     ("admins", .vList []),
     ("settings", .vDoc [("is_private", .vBool false), ("allow_file_sharing", .vBool true),
                         ("message_retention_days", .vNum 30)]),
     ("last_activity", now)])

/-- Embeds send_message (lines 191-203): the (collection, data) pair the
function passes to create_document. -/
def send_message (room_id sender_id content message_type : String) : String × Doc :=
  ("messages",
    [("room_id", .vStr room_id),
     ("sender_id", .vStr sender_id),
     ("content", .vStr content),
     ("type", .vStr message_type),
     ("reactions", .vDoc []),
     ("replies", .vList []),
     ("is_edited", .vBool false),
     ("is_deleted", .vBool false)])

/-- Embeds create_event (lines 209-230): the (collection, data) pair the
function passes to create_document.  The datetime arguments enter as opaque
values. -/
def create_event (title description : String) (start_time end_time : Value)
    (location : String) : String × Doc :=
  ("events",
    [("title", .vStr title),
     ("description", .vStr description),
     ("start_time", start_time),
     ("end_time", end_time),
     ("location", .vStr location),
     ("organizer_id", .vNull),
     ("attendees", .vList []),
     ("capacity", .vNull),
     ("price", .vNum 0),
     ("status", .vStr "published"),
     ("categories", .vList []),
     ("images", .vList []),
     ("settings", .vDoc [("registration_required", .vBool false),
                         ("allow_waitlist", .vBool false),
                         ("send_reminders", .vBool true)])])

/-- Embeds create_booking (lines 232-248): the (collection, data) pair the
function passes to create_document.  The timestamp string used in the
booking reference enters as a parameter. -/
def create_booking (event_id user_id : String) (ticket_quantity : Nat) (nowStr : String) :
    String × Doc :=
  ("bookings",
    [("event_id", .vStr event_id),
     ("user_id", .vStr user_id),
     ("ticket_quantity", .vNum ticket_quantity),
     ("booking_reference", .vStr ("BOOK-" ++ nowStr)),
     ("status", .vStr "confirmed"),
     ("payment", .vDoc [("amount", .vNum 0), ("status", .vStr "pending"),
                        ("method", .vNull)]),
     ("attendee_details", .vList []),
     ("special_requirements", .vStr "")])

/-- Embeds track_user_activity (lines 254-267): the (collection, data) pair
the function passes to create_document.  The current time enters as a
parameter. -/
def track_user_activity (user_id action resource_type resource_id : String)
    (metadata : Option Doc) (now : Value) : String × Doc :=
  ("user_activities",
    [("user_id", .vStr user_id),
     ("action", .vStr action),
     ("resource_type", .vStr resource_type),
     ("resource_id", .vStr resource_id),
     ("metadata", .vDoc (pyOrDict metadata [])),
     ("ip_address", .vNull),
     ("user_agent", .vNull),
     ("session_id", .vNull),
     ("timestamp", now)])

/-- Embeds track_page_view (lines 269-287): the (collection, data) pair the
function passes to create_document.  The current time enters as a
parameter. -/
def track_page_view (page_path : String) (user_id session_id : Option String)
    (now : Value) : String × Doc :=
  ("page_views",
    [("page_path", .vStr page_path),
     ("user_id", optStr user_id),
     ("session_id", optStr session_id),
     ("referrer", .vNull),
     ("viewport", .vDoc [("width", .vNull), ("height", .vNull)]),
     ("device_info", .vDoc [("type", .vNull), ("os", .vNull), ("browser", .vNull)]),
     ("timestamp", now)])

/-- Embeds create_notification (lines 293-304): the (collection, data) pair
the function passes to create_document. -/
def create_notification (user_id title message type : String) : String × Doc :=
  ("notifications",
    [("user_id", .vStr user_id),
     ("title", .vStr title),
     ("message", .vStr message),
     ("type", .vStr type),
     ("is_read", .vBool false),
     ("action_url", .vNull),
     ("metadata", .vDoc [])])

/-- The functions defined in src/schema_examples.py. -/
inductive FuncName where
  | create_user
  | get_user_by_email
  | create_blog_post
  | add_comment_to_post
  | create_product
  | create_order
  | create_project
  | create_task
  | create_chat_room
  | send_message
  | create_event
  | create_booking
  | track_user_activity
  | track_page_view
  | create_notification
deriving DecidableEq, Fintype

/-- A database call made by a source function: one of the four DocumentStore
operations on a named collection, or a direct call through the raw database
handle. -/
inductive DbCall where
  | createDoc (collection : String)
  | getDocs (collection : String)
  | updateDoc (collection : String)
  | deleteDoc (collection : String)
  | rawDbCall (target : String)
deriving DecidableEq

/-- Whether a call is delegated to the DocumentStore layer (create_document,
get_documents, update_document or delete_document), as opposed to a raw
database-handle call. -/
def DbCall.isStoreCall : DbCall → Bool
  | .rawDbCall _ => false
  | _ => true

/-- The database calls each source function makes, read off the source: every
function makes exactly one call; all delegate to the DocumentStore layer
except add_comment_to_post, which calls db.posts.update_one directly
(lines 71-75). -/
def storeCalls : FuncName → List DbCall
  | .create_user => [.createDoc "users"]
  | .get_user_by_email => [.getDocs "users"]
  | .create_blog_post => [.createDoc "posts"]
  | .add_comment_to_post => [.rawDbCall "db.posts.update_one"]
  | .create_product => [.createDoc "products"]
  | .create_order => [.createDoc "orders"]
  | .create_project => [.createDoc "projects"]
  | .create_task => [.createDoc "tasks"]
  | .create_chat_room => [.createDoc "chat_rooms"]
  | .send_message => [.createDoc "messages"]
  | .create_event => [.createDoc "events"]
  | .create_booking => [.createDoc "bookings"]
  | .track_user_activity => [.createDoc "user_activities"]
  | .track_page_view => [.createDoc "page_views"]
  | .create_notification => [.createDoc "notifications"]

/-- Modelled from the spec: the DocumentStore state.  The layer itself (module
`database`) is not part of the repository source; it is modelled from the
specification's section 4.1: collections are named groups of documents,
each document carries a system-assigned identifier generated from a counter
that is never reused, next to its schema-less field mapping. -/
structure Store where
  colls : List (String × List (Value × Doc))
  nextId : Nat

/-- Modelled from the spec: the identifier generated for the n-th created
document.  The spec leaves the generation strategy open and identifiers
opaque; they are modelled as numeric values of the counter, which makes
generation injective. -/
def idOf (n : Nat) : Value := Value.vNum n

/-- The empty store: no collections, counter at zero. -/
def store0 : Store := ⟨[], 0⟩

/-- The documents of the named collection (collections are created implicitly,
so an unknown name denotes the empty collection). -/
def collOf (cs : List (String × List (Value × Doc))) (c : String) : List (Value × Doc) :=
  match cs with
  | [] => []
  | (c', ds) :: rest => if c' = c then ds else collOf rest c

/-- Replaces (or implicitly creates) the named collection's document list. -/
def setColl (cs : List (String × List (Value × Doc))) (c : String)
    (ds : List (Value × Doc)) : List (String × List (Value × Doc)) :=
  match cs with
  | [] => [(c, ds)]
  | (c', ds') :: rest => if c' = c then (c, ds) :: rest else (c', ds') :: setColl rest c ds

/-- A stored document as returned to callers: its system identifier under the
key "id", followed by its fields. -/
def render (d : Value × Doc) : Doc := ("id", d.1) :: d.2

/-- Modelled from the spec: a document matches a filter when every key/value
pair of the filter is carried by the document, under exact equality. -/
def matchesFilter (d : Doc) (filt : Doc) : Bool :=
  filt.all (fun kv =>
    match lookupField d kv.1 with
    | some v => Value.beq v kv.2
    | none => false)

/-- Modelled from the spec: create_document inserts the data as a new document
of the collection and returns its freshly generated identifier. -/
def create_document (c : String) (data : Doc) (st : Store) : Value × Store :=
  let i := idOf st.nextId
  (i, ⟨setColl st.colls c ((i, data) :: collOf st.colls c), st.nextId + 1⟩)

/-- Modelled from the spec: get_documents returns all documents of the
collection matching every pair of the filter; the empty filter matches
everything, and an empty result is an empty sequence, not an error. -/
def get_documents (c : String) (filt : Doc) (st : Store) : List Doc :=
  ((collOf st.colls c).filter (fun d => matchesFilter (render d) filt)).map render

/-- Modelled from the spec: partial-patch merge.  Patch bindings are placed
before the existing fields, so first-binding lookup yields the patched
value for patched keys and the prior value for every other key. -/
def mergePatch (fields patch : Doc) : Doc := patch ++ fields

/-- Patches the first document carrying the given identifier, leaving every
other document untouched; none when no document carries it. -/
def updateFirst (i : Value) (patch : Doc) : List (Value × Doc) → Option (List (Value × Doc))
  | [] => none
  | d :: ds =>
    if Value.beq d.1 i then some ((d.1, mergePatch d.2 patch) :: ds)
    else
      match updateFirst i patch ds with
      | none => none
      | some ds' => some (d :: ds')

/-- Modelled from the spec: update_document merges the patch into the
document's fields and reports whether a document was found; a missing
identifier is a no-op returning false, never an exception. -/
def update_document (c : String) (i : Value) (patch : Doc) (st : Store) : Bool × Store :=
  match updateFirst i patch (collOf st.colls c) with
  | some ds => (true, ⟨setColl st.colls c ds, st.nextId⟩)
  | none => (false, st)

/-- Modelled from the spec: delete_document removes the document and reports
whether one existed; a missing identifier is a no-op returning false, never
an exception. -/
def delete_document (c : String) (i : Value) (st : Store) : Bool × Store :=
  let ds := collOf st.colls c
  if ds.any (fun d => Value.beq d.1 i) then
    (true, ⟨setColl st.colls c (ds.filter (fun d => !Value.beq d.1 i)), st.nextId⟩)
  else (false, st)

/-- Embeds get_user_by_email (lines 34-37): queries the users collection by
exact email match and returns the first result, or none when the result
sequence is empty. -/
def get_user_by_email (email : String) (st : Store) : Option Doc :=
  let users := get_documents "users" [("email", Value.vStr email)] st
  match users with
  | [] => none
  | u :: _ => some u

/-- A store operation, for reasoning about sequences of calls. -/
inductive StoreOp where
  | createOp (c : String) (data : Doc)
  | updateOp (c : String) (i : Value) (patch : Doc)
  | deleteOp (c : String) (i : Value)

/-- An observable event of a run: a creation returning the given identifier,
or a successful deletion of the given identifier. -/
inductive Event where
  | created (c : String) (i : Value)
  | deleted (c : String) (i : Value)

/-- Runs a sequence of store operations, collecting the final state and the
creation/successful-deletion events. -/
def runOps : List StoreOp → Store → Store × List Event
  | [], st => (st, [])
  | StoreOp.createOp c data :: rest, st =>
    let r := create_document c data st
    let f := runOps rest r.2
    (f.1, Event.created c r.1 :: f.2)
  | StoreOp.updateOp c i p :: rest, st => runOps rest (update_document c i p st).2
  | StoreOp.deleteOp c i :: rest, st =>
    let r := delete_document c i st
    let f := runOps rest r.2
    (f.1, if r.1 then Event.deleted c i :: f.2 else f.2)

/-- The identifiers returned by create_document calls on the given collection,
in order, along a run's event list. -/
def createdIdsIn (c : String) (evs : List Event) : List Value :=
  evs.filterMap (fun e =>
    match e with
    | .created c' i => if c' = c then some i else none
    | .deleted _ _ => none)

/-- The identifiers of the documents currently in a collection. -/
def collIds (st : Store) (c : String) : List Value :=
  (collOf st.colls c).map Prod.fst

/-- Every identifier in the store was generated by the counter, below its
current value. -/
def Bounded (st : Store) : Prop :=
  ∀ c d, d ∈ collOf st.colls c → ∃ k, k < st.nextId ∧ d.1 = idOf k

theorem Value.beqL_eq (as : List Value)
    (ih : ∀ x ∈ as, ∀ b : Value, Value.beq x b = true → x = b) :
    ∀ bs, Value.beqL as bs = true → as = bs := by
  induction as with
  | nil =>
    intro bs h
    cases bs with
    | nil => rfl
    | cons y ys => simp [Value.beqL] at h
  | cons x xs ihl =>
    intro bs h
    cases bs with
    | nil => simp [Value.beqL] at h
    | cons y ys =>
      simp only [Value.beqL, Bool.and_eq_true] at h
      have hx := ih x (by simp) y h.1
      have hxs := ihl (fun z hz b hb => ih z (by simp [hz]) b hb) ys h.2
      rw [hx, hxs]

theorem Value.beqD_eq (as : List (String × Value))
    (ih : ∀ p ∈ as, ∀ b : Value, Value.beq p.2 b = true → p.2 = b) :
    ∀ bs, Value.beqD as bs = true → as = bs := by
  induction as with
  | nil =>
    intro bs h
    cases bs with
    | nil => rfl
    | cons y ys => simp [Value.beqD] at h
  | cons x xs ihl =>
    intro bs h
    obtain ⟨k, v⟩ := x
    cases bs with
    | nil => simp [Value.beqD] at h
    | cons y ys =>
      obtain ⟨l, w⟩ := y
      simp only [Value.beqD, Bool.and_eq_true, beq_iff_eq] at h
      have hv := ih (k, v) (by simp) w h.1.2
      have hxs := ihl (fun z hz b hb => ih z (by simp [hz]) b hb) ys h.2
      simp only at hv
      rw [h.1.1, hv, hxs]

theorem Value.sizeOf_lt_of_mem_list {x : Value} {l : List Value} (h : x ∈ l) :
    sizeOf x < sizeOf (Value.vList l) := by
  have := List.sizeOf_lt_of_mem h
  simp only [Value.vList.sizeOf_spec]
  omega

theorem Value.sizeOf_lt_of_mem_doc {p : String × Value} {l : List (String × Value)}
    (h : p ∈ l) : sizeOf p.2 < sizeOf (Value.vDoc l) := by
  have h1 := List.sizeOf_lt_of_mem h
  have h2 : sizeOf p.2 < sizeOf p := by
    obtain ⟨k, v⟩ := p; simp
  simp only [Value.vDoc.sizeOf_spec]
  omega

theorem Value.eq_of_beq_aux :
    ∀ n, ∀ a b : Value, sizeOf a < n → Value.beq a b = true → a = b := by
  intro n
  induction n with
  | zero => intro a b hs; exact absurd hs (Nat.not_lt_zero _)
  | succ n ihn =>
    intro a b hs hb
    cases a with
    | vNull => cases b <;> simp_all [Value.beq]
    | vBool x => cases b <;> simp_all [Value.beq]
    | vNum x => cases b <;> simp_all [Value.beq]
    | vStr x => cases b <;> simp_all [Value.beq]
    | vList xs =>
      cases b with
      | vList ys =>
        have := Value.beqL_eq xs (fun x hx b hb => by
          have hlt := Value.sizeOf_lt_of_mem_list hx
          exact ihn x b (by omega) hb) ys (by simpa [Value.beq] using hb)
        rw [this]
      | vNull => simp [Value.beq] at hb
      | vBool _ => simp [Value.beq] at hb
      | vNum _ => simp [Value.beq] at hb
      | vStr _ => simp [Value.beq] at hb
      | vDoc _ => simp [Value.beq] at hb
    | vDoc xs =>
      cases b with
      | vDoc ys =>
        have := Value.beqD_eq xs (fun p hp b hb => by
          have hlt := Value.sizeOf_lt_of_mem_doc hp
          exact ihn p.2 b (by omega) hb) ys (by simpa [Value.beq] using hb)
        rw [this]
      | vNull => simp [Value.beq] at hb
      | vBool _ => simp [Value.beq] at hb
      | vNum _ => simp [Value.beq] at hb
      | vStr _ => simp [Value.beq] at hb
      | vList _ => simp [Value.beq] at hb

theorem Value.eq_of_beq {a b : Value} (h : Value.beq a b = true) : a = b :=
  Value.eq_of_beq_aux (sizeOf a + 1) a b (Nat.lt_succ_self _) h

theorem Value.beqL_refl (as : List Value) (ih : ∀ x ∈ as, Value.beq x x = true) :
    Value.beqL as as = true := by
  induction as with
  | nil => rfl
  | cons x xs ihl =>
    simp only [Value.beqL, Bool.and_eq_true]
    exact ⟨ih x (by simp), ihl (fun z hz => ih z (by simp [hz]))⟩

theorem Value.beqD_refl (as : List (String × Value)) (ih : ∀ p ∈ as, Value.beq p.2 p.2 = true) :
    Value.beqD as as = true := by
  induction as with
  | nil => rfl
  | cons x xs ihl =>
    obtain ⟨k, v⟩ := x
    have h1 := ih (k, v) (by simp)
    have h2 := ihl (fun z hz => ih z (by simp [hz]))
    simp only at h1
    simp [Value.beqD, h1, h2]

theorem Value.beq_refl_aux : ∀ n, ∀ a : Value, sizeOf a < n → Value.beq a a = true := by
  intro n
  induction n with
  | zero => intro a hs; exact absurd hs (Nat.not_lt_zero _)
  | succ n ihn =>
    intro a hs
    cases a with
    | vNull => rfl
    | vBool x => simp [Value.beq]
    | vNum x => simp [Value.beq]
    | vStr x => simp [Value.beq]
    | vList xs =>
      simp only [Value.beq]
      exact Value.beqL_refl xs (fun x hx => by
        have hlt := Value.sizeOf_lt_of_mem_list hx
        exact ihn x (by omega))
    | vDoc xs =>
      simp only [Value.beq]
      exact Value.beqD_refl xs (fun p hp => by
        have hlt := Value.sizeOf_lt_of_mem_doc hp
        exact ihn p.2 (by omega))

theorem Value.beq_refl (a : Value) : Value.beq a a = true :=
  Value.beq_refl_aux (sizeOf a + 1) a (Nat.lt_succ_self _)

@[simp] theorem Value.beq_iff {a b : Value} : Value.beq a b = true ↔ a = b :=
  ⟨Value.eq_of_beq, fun h => h ▸ Value.beq_refl a⟩

theorem idOf_inj {a b : Nat} (h : idOf a = idOf b) : a = b := by
  simpa [idOf] using h

theorem collOf_setColl_same (cs : List (String × List (Value × Doc))) (c : String)
    (ds : List (Value × Doc)) : collOf (setColl cs c ds) c = ds := by
  induction cs with
  | nil => simp [setColl, collOf]
  | cons x rest ih =>
    obtain ⟨c', ds'⟩ := x
    by_cases h : c' = c
    · simp [setColl, collOf, h]
    · simp [setColl, collOf, h, ih]

theorem collOf_setColl_other (cs : List (String × List (Value × Doc))) {c c₀ : String}
    (ds : List (Value × Doc)) (h : c ≠ c₀) : collOf (setColl cs c₀ ds) c = collOf cs c := by
  induction cs with
  | nil => simp [setColl, collOf, Ne.symm h]
  | cons x rest ih =>
    obtain ⟨c', ds'⟩ := x
    by_cases h' : c' = c₀
    · subst h'
      simp [setColl, collOf, Ne.symm h]
    · simp only [setColl, if_neg h']
      by_cases h'' : c' = c
    

      · simp [collOf, h'']
      · simp [collOf, h'', ih]

theorem lookupField_append_some {p : Doc} {k : String} {v : Value} (f : Doc)
    (h : lookupField p k = some v) : lookupField (p ++ f) k = some v := by
  induction p with
  | nil => simp [lookupField] at h
  | cons x rest ih =>
    obtain ⟨k', w⟩ := x
    by_cases hk : k' = k
    · simp only [lookupField, if_pos hk] at h
      simp [lookupField, hk, h]
    · simp only [lookupField, if_neg hk] at h
      simp [lookupField, hk, ih h]

theorem lookupField_append_none {p : Doc} {k : String} (f : Doc)
    (h : lookupField p k = none) : lookupField (p ++ f) k = lookupField f k := by
  induction p with
  | nil => simp
  | cons x rest ih =>
    obtain ⟨k', w⟩ := x
    by_cases hk : k' = k
    · simp [lookupField, if_pos hk] at h
    · simp only [lookupField, if_neg hk] at h
      simp [lookupField, hk, ih h]

theorem matchesFilter_nil (d : Doc) : matchesFilter d [] = true := rfl

theorem matchesFilter_id (d : Value × Doc) (i : Value) :
    matchesFilter (render d) [("id", i)] = Value.beq d.1 i := by
  simp [matchesFilter, render, lookupField]

theorem updateFirst_eq_none {i : Value} {p : Doc} {l : List (Value × Doc)}
    (h : ∀ d ∈ l, Value.beq d.1 i = false) : updateFirst i p l = none := by
  induction l with
  | nil => rfl
  | cons x xs ih =>
    have hx := h x (by simp)
    simp only [updateFirst, hx, Bool.false_eq_true, if_false]
    rw [ih (fun d hd => h d (by simp [hd]))]

theorem updateFirst_filter_cons (i : Value) (p : Doc) :
    ∀ l d₀ rest, l.filter (fun d => Value.beq d.1 i) = d₀ :: rest →
    ∃ l', updateFirst i p l = some l' ∧
      l'.filter (fun d => Value.beq d.1 i) = (d₀.1, mergePatch d₀.2 p) :: rest := by
  intro l
  induction l with
  | nil => intro d₀ rest h; simp at h
  | cons x xs ih =>
    intro d₀ rest h
    by_cases hx : Value.beq x.1 i = true
    · rw [List.filter_cons_of_pos (by simpa using hx)] at h
      obtain ⟨h1, h2⟩ := List.cons_eq_cons.mp h
      subst h1
      refine ⟨(x.1, mergePatch x.2 p) :: xs, ?_, ?_⟩
      · simp [updateFirst, hx]
      · rw [List.filter_cons_of_pos (by simpa using hx), h2]
    · rw [List.filter_cons_of_neg (by simpa using hx)] at h
      obtain ⟨l', hl1, hl2⟩ := ih d₀ rest h
      refine ⟨x :: l', ?_, ?_⟩
      · simp [updateFirst, hx, hl1]
      · rw [List.filter_cons_of_neg (by simpa using hx), hl2]

theorem updateFirst_map_fst {i : Value} {p : Doc} :
    ∀ {l l' : List (Value × Doc)}, updateFirst i p l = some l' →
      l'.map Prod.fst = l.map Prod.fst := by
  intro l
  induction l with
  | nil => intro l' h; simp [updateFirst] at h
  | cons x xs ih =>
    intro l' h
    by_cases hx : Value.beq x.1 i = true
    · simp only [updateFirst, hx, if_true] at h
      cases h
      simp
    · simp only [updateFirst, hx, Bool.false_eq_true, if_false] at h
      cases hr : updateFirst i p xs with
      | none => rw [hr] at h; cases h
      | some ds' =>
        rw [hr] at h
        cases h
        simp [ih hr]

theorem update_document_nextId (c : String) (i : Value) (p : Doc) (st : Store) :
    (update_document c i p st).2.nextId = st.nextId := by
  unfold update_document
  cases h : updateFirst i p (collOf st.colls c) <;> simp

theorem delete_document_nextId (c : String) (i : Value) (st : Store) :
    (delete_document c i st).2.nextId = st.nextId := by
  unfold delete_document
  by_cases h : (collOf st.colls c).any (fun d => Value.beq d.1 i) = true <;> simp [h]

theorem bounded_store0 : Bounded store0 := by
  intro c d hd
  simp [store0, collOf] at hd

theorem create_document_nextId (c : String) (data : Doc) (st : Store) :
    (create_document c data st).2.nextId = st.nextId + 1 := rfl

theorem create_document_colls (c : String) (data : Doc) (st : Store) :
    (create_document c data st).2.colls =
      setColl st.colls c ((idOf st.nextId, data) :: collOf st.colls c) := rfl

theorem create_document_fst (c : String) (data : Doc) (st : Store) :
    (create_document c data st).1 = idOf st.nextId := rfl

theorem bounded_create {st : Store} (hB : Bounded st) (c : String) (data : Doc) :
    Bounded (create_document c data st).2 := by
  intro c' d hd
  rw [create_document_colls] at hd
  rw [create_document_nextId]
  by_cases hc : c' = c
  · subst hc
    rw [collOf_setColl_same] at hd
    rcases List.mem_cons.mp hd with h1 | h1
    · exact ⟨st.nextId, by omega, by rw [h1]⟩
    · obtain ⟨k, hk1, hk2⟩ := hB _ d h1
      exact ⟨k, by omega, hk2⟩
  · rw [collOf_setColl_other _ _ hc] at hd
    obtain ⟨k, hk1, hk2⟩ := hB c' d hd
    exact ⟨k, by omega, hk2⟩

theorem bounded_update {st : Store} (hB : Bounded st) (c : String) (i : Value) (p : Doc) :
    Bounded (update_document c i p st).2 := by
  unfold update_document
  cases h : updateFirst i p (collOf st.colls c) with
  | none => simpa using hB
  | some ds =>
    simp only
    intro c' d hd
    simp only [update_document_nextId]
    by_cases hc : c' = c
    · subst hc
      rw [collOf_setColl_same] at hd
      have hmem : d.1 ∈ ds.map Prod.fst := List.mem_map_of_mem _ hd
      rw [updateFirst_map_fst h] at hmem
      obtain ⟨d₀, hd₀, hfst⟩ := List.mem_map.mp hmem
      obtain ⟨k, hk1, hk2⟩ := hB c' d₀ hd₀
      exact ⟨k, hk1, by rw [← hfst, hk2]⟩
    · rw [collOf_setColl_other _ _ hc] at hd
      exact hB c' d hd

theorem bounded_delete {st : Store} (hB : Bounded st) (c : String) (i : Value) :
    Bounded (delete_document c i st).2 := by
  unfold delete_document
  by_cases h : (collOf st.colls c).any (fun d => Value.beq d.1 i) = true
  · simp only [h, if_true]
    intro c' d hd
    by_cases hc : c' = c
    · subst hc
      rw [collOf_setColl_same] at hd
      exact hB c' d (List.mem_of_mem_filter hd)
    · rw [collOf_setColl_other _ _ hc] at hd
      exact hB c' d hd
  · simpa [h] using hB

theorem createdIdsIn_cons_created_same (c : String) (i' : Value) (rest : List Event) :
    createdIdsIn c (Event.created c i' :: rest) = i' :: createdIdsIn c rest := by
  simp [createdIdsIn, List.filterMap_cons]

theorem createdIdsIn_cons_created_other {c c' : String} (h : c' ≠ c) (i' : Value)
    (rest : List Event) :
    createdIdsIn c (Event.created c' i' :: rest) = createdIdsIn c rest := by
  simp [createdIdsIn, List.filterMap_cons, h]

theorem createdIdsIn_cons_deleted (c c' : String) (i' : Value) (rest : List Event) :
    createdIdsIn c (Event.deleted c' i' :: rest) = createdIdsIn c rest := by
  simp [createdIdsIn, List.filterMap_cons]

theorem mem_createdIdsIn {c : String} {i : Value} :
    ∀ {evs : List Event}, i ∈ createdIdsIn c evs ↔ Event.created c i ∈ evs := by
  intro evs
  induction evs with
  | nil => simp [createdIdsIn]
  | cons e rest ih =>
    cases e with
    | created c' i' =>
      by_cases h : c' = c
      · subst h
        rw [createdIdsIn_cons_created_same]
        simp [ih]
      · rw [createdIdsIn_cons_created_other h]
        simp only [List.mem_cons, ih]
        constructor
        · exact fun hm => Or.inr hm
        · rintro (he | hm)
          · exact absurd (Event.created.inj he).1.symm h
          · exact hm
    | deleted c' i' =>
      rw [createdIdsIn_cons_deleted]
      simp [ih]

theorem runOps_created_fresh : ∀ (ops : List StoreOp) (st : Store) (c : String) (i : Value),
    Event.created c i ∈ (runOps ops st).2 → ∃ k, st.nextId ≤ k ∧ i = idOf k := by
  intro ops
  induction ops with
  | nil => intro st c i h; simp [runOps] at h
  | cons op rest ih =>
    intro st c i h
    cases op with
    | createOp c₀ data =>
      simp only [runOps] at h
      rcases List.mem_cons.mp h with h1 | h1
      · simp only [create_document_fst, Event.created.injEq] at h1
        exact ⟨st.nextId, le_refl _, h1.2⟩
      · obtain ⟨k, hk1, hk2⟩ := ih _ c i h1
        rw [create_document_nextId] at hk1
        exact ⟨k, by omega, hk2⟩
    | updateOp c₀ i₀ p =>
      simp only [runOps] at h
      obtain ⟨k, hk1, hk2⟩ := ih _ c i h
      rw [update_document_nextId] at hk1
      exact ⟨k, hk1, hk2⟩
    | deleteOp c₀ i₀ =>
      simp only [runOps] at h
      by_cases hb : (delete_document c₀ i₀ st).1 = true
      · rw [if_pos hb] at h
        rcases List.mem_cons.mp h with h1 | h1
        · exact absurd h1 (by simp)
        · obtain ⟨k, hk1, hk2⟩ := ih _ c i h1
          rw [delete_document_nextId] at hk1
          exact ⟨k, hk1, hk2⟩
      · rw [if_neg hb] at h
        obtain ⟨k, hk1, hk2⟩ := ih _ c i h
        rw [delete_document_nextId] at hk1
        exact ⟨k, hk1, hk2⟩

theorem runOps_created_nodup : ∀ (ops : List StoreOp) (st : Store) (c : String),
    (createdIdsIn c (runOps ops st).2).Nodup := by
  intro ops
  induction ops with
  | nil => intro st c; simp [runOps, createdIdsIn]
  | cons op rest ih =>
    intro st c
    cases op with
    | createOp c₀ data =>
      simp only [runOps, create_document_fst]
      by_cases h : c₀ = c
      · subst h
        rw [createdIdsIn_cons_created_same]
        refine List.nodup_cons.mpr ⟨?_, ih _ _⟩
        intro hmem
        rw [mem_createdIdsIn] at hmem
        obtain ⟨k, hk1, hk2⟩ := runOps_created_fresh rest _ _ _ hmem
        rw [create_document_nextId] at hk1
        have := idOf_inj hk2
        omega
      · rw [createdIdsIn_cons_created_other h]
        exact ih _ _
    | updateOp c₀ i₀ p =>
      simp only [runOps]
      exact ih _ _
    | deleteOp c₀ i₀ =>
      simp only [runOps]
      by_cases hb : (delete_document c₀ i₀ st).1 = true
      · rw [if_pos hb, createdIdsIn_cons_deleted]
        exact ih _ _
      · rw [if_neg hb]
        exact ih _ _

theorem mem_map_fst_filter {l : List (Value × Doc)} {i i₀ : Value} :
    (i ∈ (l.filter (fun d => !Value.beq d.1 i₀)).map Prod.fst) ↔
      (i ∈ l.map Prod.fst ∧ i ≠ i₀) := by
  simp only [List.mem_map, List.mem_filter]
  constructor
  · rintro ⟨d, ⟨hd, hneq⟩, rfl⟩
    refine ⟨⟨d, hd, rfl⟩, ?_⟩
    intro he
    rw [he] at hneq
    simp [Value.beq_refl] at hneq
  · rintro ⟨⟨d, hd, rfl⟩, hne⟩
    refine ⟨d, ⟨hd, ?_⟩, rfl⟩
    cases hb : Value.beq d.1 i₀
    · rfl
    · exact absurd (Value.eq_of_beq hb) hne

theorem delete_document_of_any {c : String} {i : Value} {st : Store}
    (h : (collOf st.colls c).any (fun d => Value.beq d.1 i) = true) :
    delete_document c i st =
      (true, ⟨setColl st.colls c ((collOf st.colls c).filter (fun d => !Value.beq d.1 i)),
              st.nextId⟩) := by
  simp [delete_document, h]

theorem delete_document_of_not_any {c : String} {i : Value} {st : Store}
    (h : ¬ (collOf st.colls c).any (fun d => Value.beq d.1 i) = true) :
    delete_document c i st = (false, st) := by
  simp only [delete_document]
  rw [if_neg h]

theorem collIds_create (c₀ c : String) (data : Doc) (st : Store) :
    collIds (create_document c₀ data st).2 c =
      if c₀ = c then idOf st.nextId :: collIds st c else collIds st c := by
  unfold collIds
  rw [create_document_colls]
  by_cases h : c₀ = c
  · subst h
    rw [if_pos rfl, collOf_setColl_same]
    simp
  · rw [if_neg h, collOf_setColl_other _ _ (fun he => h he.symm)]

theorem collIds_update (c₀ : String) (i₀ : Value) (p : Doc) (st : Store) (c : String) :
    collIds (update_document c₀ i₀ p st).2 c = collIds st c := by
  cases hu : updateFirst i₀ p (collOf st.colls c₀) with
  | none => simp [update_document, hu]
  | some ds =>
    simp only [update_document, hu]
    unfold collIds
    by_cases h : c = c₀
    · subst h
      show (collOf (setColl st.colls c ds) c).map Prod.fst = _
      rw [collOf_setColl_same, updateFirst_map_fst hu]
    · show (collOf (setColl st.colls c₀ ds) c).map Prod.fst = _
      rw [collOf_setColl_other _ _ h]

theorem mem_cons_created_created {c c₀ : String} {i i₀ : Value} {evs : List Event} :
    Event.created c i ∈ (Event.created c₀ i₀ :: evs) ↔
      ((c = c₀ ∧ i = i₀) ∨ Event.created c i ∈ evs) := by
  simp [Event.created.injEq]

theorem mem_cons_created_deleted {c c₀ : String} {i i₀ : Value} {evs : List Event} :
    Event.created c i ∈ (Event.deleted c₀ i₀ :: evs) ↔ Event.created c i ∈ evs := by
  simp

theorem mem_cons_deleted_created {c c₀ : String} {i i₀ : Value} {evs : List Event} :
    Event.deleted c i ∈ (Event.created c₀ i₀ :: evs) ↔ Event.deleted c i ∈ evs := by
  simp

theorem mem_cons_deleted_deleted {c c₀ : String} {i i₀ : Value} {evs : List Event} :
    Event.deleted c i ∈ (Event.deleted c₀ i₀ :: evs) ↔
      ((c = c₀ ∧ i = i₀) ∨ Event.deleted c i ∈ evs) := by
  simp [Event.deleted.injEq]

theorem runOps_mem_iff :
    ∀ (ops : List StoreOp) (st : Store), Bounded st → ∀ (c : String) (i : Value),
    (i ∈ collIds (runOps ops st).1 c ↔
      ((i ∈ collIds st c ∨ Event.created c i ∈ (runOps ops st).2) ∧
        Event.deleted c i ∉ (runOps ops st).2)) := by
  intro ops
  induction ops with
  | nil => intro st hB c i; simp [runOps]
  | cons op rest ih =>
    intro st hB c i
    cases op with
    | createOp c₀ data =>
      simp only [runOps, create_document_fst]
      rw [ih _ (bounded_create hB c₀ data) c i]
      rw [collIds_create]
      rw [mem_cons_created_created, mem_cons_deleted_created]
      by_cases h : c₀ = c
      · subst h
        rw [if_pos rfl, List.mem_cons]
        tauto
      · rw [if_neg h]
        have h' : ¬(c = c₀) := fun he => h he.symm
        tauto
    | updateOp c₀ i₀ p =>
      simp only [runOps]
      rw [ih _ (bounded_update hB c₀ i₀ p) c i, collIds_update]
    | deleteOp c₀ i₀ =>
      simp only [runOps]
      by_cases hb : (collOf st.colls c₀).any (fun d => Value.beq d.1 i₀) = true
      · have h1 : (delete_document c₀ i₀ st).1 = true := by
          rw [delete_document_of_any hb]
        simp only [if_pos h1]
        rw [ih _ (bounded_delete hB c₀ i₀) c i]
        rw [mem_cons_created_deleted, mem_cons_deleted_deleted]
        have hex : ∃ k, k < st.nextId ∧ i₀ = idOf k := by
          obtain ⟨d, hd, hbd⟩ := List.any_eq_true.mp hb
          have hkd := hB c₀ d hd
          rwa [Value.eq_of_beq hbd] at hkd
        obtain ⟨k, hk1, hk2⟩ := hex
        have hfr : Event.created c₀ i₀ ∉ (runOps rest (delete_document c₀ i₀ st).2).2 := by
          intro hm
          obtain ⟨m, hm1, hm2⟩ := runOps_created_fresh rest _ _ _ hm
          rw [delete_document_nextId] at hm1
          rw [hk2] at hm2
          have := idOf_inj hm2
          omega
        by_cases hc : c = c₀
        · subst hc
          have hcoll : i ∈ collIds (delete_document c i₀ st).2 c ↔
              (i ∈ collIds st c ∧ i ≠ i₀) := by
            rw [delete_document_of_any hb]
            show i ∈ (collOf (setColl st.colls c _) c).map Prod.fst ↔ _
            rw [collOf_setColl_same]
            exact mem_map_fst_filter
          rw [hcoll]
          by_cases hi : i = i₀
          · subst hi
            tauto
          · tauto
        · have hcoll : i ∈ collIds (delete_document c₀ i₀ st).2 c ↔
              i ∈ collIds st c := by
            rw [delete_document_of_any hb]
            show i ∈ (collOf (setColl st.colls c₀ _) c).map Prod.fst ↔ _
            rw [collOf_setColl_other _ _ hc]
            exact Iff.rfl
          rw [hcoll]
          tauto
      · have h1 : (delete_document c₀ i₀ st).1 = false := by
          rw [delete_document_of_not_any hb]
        have h2 : (delete_document c₀ i₀ st).2 = st := by
          rw [delete_document_of_not_any hb]
        simp only [h1, Bool.false_eq_true, if_false, h2]
        exact ih _ hB c i

theorem get_documents_id (c : String) (i : Value) (st : Store) :
    get_documents c [("id", i)] st =
      ((collOf st.colls c).filter (fun d => Value.beq d.1 i)).map render := by
  unfold get_documents
  congr 1
  apply List.filter_congr
  intro d hd
  exact matchesFilter_id d i

theorem filter_after_delete (l : List (Value × Doc)) (i : Value) :
    (l.filter (fun d => !Value.beq d.1 i)).filter (fun d => Value.beq d.1 i) = [] := by
  induction l with
  | nil => rfl
  | cons x xs ih =>
    cases hx : Value.beq x.1 i
    · rw [List.filter_cons_of_pos (by simp [hx])]
      rw [List.filter_cons_of_neg (by simp [hx])]
      exact ih
    · rw [List.filter_cons_of_neg (by simp [hx])]
      exact ih

theorem any_after_delete (l : List (Value × Doc)) (i : Value) :
    (l.filter (fun d => !Value.beq d.1 i)).any (fun d => Value.beq d.1 i) = false := by
  cases hA : (l.filter (fun d => !Value.beq d.1 i)).any (fun d => Value.beq d.1 i)
  · rfl
  · obtain ⟨d, hd, hbd⟩ := List.any_eq_true.mp hA
    have hnb := (List.mem_filter.mp hd).2
    rw [hbd] at hnb
    simp at hnb

theorem update_document_of_updateFirst {c : String} {i : Value} {p : Doc} {st : Store}
    {ds : List (Value × Doc)} (hu : updateFirst i p (collOf st.colls c) = some ds) :
    update_document c i p st = (true, ⟨setColl st.colls c ds, st.nextId⟩) := by
  unfold update_document
  rw [hu]

theorem update_document_absent {c : String} {i : Value} {p : Doc} {st : Store}
    (h : ∀ d ∈ collOf st.colls c, Value.beq d.1 i = false) :
    update_document c i p st = (false, st) := by
  unfold update_document
  rw [updateFirst_eq_none h]

theorem pyOrList_some_nil_default (l : List Value) : pyOrList (some l) [] = l := by
  cases l <;> simp [pyOrList]

theorem orderTotal_aux :
    ∀ (items : List Value) (a : Rat), (∀ it ∈ items, (itemCost it).isSome = true) →
    items.foldl
      (fun acc it =>
        match acc, itemCost it with
        | some s, some c => some (s + c)
        | _, _ => none)
      (some a) =
    some (a + (items.map (fun it => (itemCost it).getD 0)).sum) := by
  intro items
  induction items with
  | nil => intro a h; simp
  | cons x xs ih =>
    intro a h
    have hx := h x (by simp)
    obtain ⟨cx, hcx⟩ := Option.isSome_iff_exists.mp hx
    simp only [List.foldl_cons, hcx]
    rw [ih (a + cx) (fun it hit => h it (by simp [hit]))]
    simp only [List.map_cons, List.sum_cons, hcx, Option.getD_some, Option.some.injEq]
    ring

theorem orderTotal_eq_sum (items : List Value)
    (h : ∀ it ∈ items, (itemCost it).isSome = true) :
    orderTotal items = some ((items.map (fun it => (itemCost it).getD 0)).sum) := by
  have haux := orderTotal_aux items 0 h
  unfold orderTotal
  rw [haux, zero_add]

theorem mem_get_documents_nil_iff (st : Store) (c : String) (i : Value) :
    (∃ d ∈ get_documents c [] st, lookupField d "id" = some i) ↔ i ∈ collIds st c := by
  unfold get_documents collIds
  constructor
  · rintro ⟨d, hd, hlook⟩
    obtain ⟨d₀, hd₀, rfl⟩ := List.mem_map.mp hd
    have hd₀' := List.mem_of_mem_filter hd₀
    refine List.mem_map.mpr ⟨d₀, hd₀', ?_⟩
    simpa [render, lookupField] using hlook
  · intro hm
    obtain ⟨d₀, hd₀, rfl⟩ := List.mem_map.mp hm
    refine ⟨render d₀, List.mem_map.mpr ⟨d₀, ?_, rfl⟩, by simp [render, lookupField]⟩
    exact List.mem_filter.mpr ⟨hd₀, by rw [matchesFilter_nil]⟩

/-- Claim C1, counterexample: add_comment_to_post's single database call is the
raw handle call db.posts.update_one, not one of the four DocumentStore
operations, and create_user's payload is not a flat dictionary (its
"profile" value is a nested mapping). -/
theorem claim_C1_counterexample :
    storeCalls FuncName.add_comment_to_post = [DbCall.rawDbCall "db.posts.update_one"] ∧
    DbCall.isStoreCall (DbCall.rawDbCall "db.posts.update_one") = false ∧
    isFlatDoc (create_user "Ada" "ada@example.com" "h").2 = false :=
  ⟨rfl, rfl, rfl⟩

/-- Claim C1 (amended): every function of the repository makes exactly one
database call; every function other than add_comment_to_post delegates that
single call to the DocumentStore layer, while add_comment_to_post calls the
raw database handle db.posts.update_one directly. -/
theorem claim_C1 : ∀ f : FuncName,
    (storeCalls f).length = 1 ∧
    (f ≠ FuncName.add_comment_to_post →
      ∀ call ∈ storeCalls f, DbCall.isStoreCall call = true) ∧
    (f = FuncName.add_comment_to_post →
      storeCalls f = [DbCall.rawDbCall "db.posts.update_one"]) := by
  decide

/-- Claim C1 witness: the amended claim evaluated at create_user. -/
theorem claim_C1_witness :
    (storeCalls FuncName.create_user).length = 1 ∧
    (∀ call ∈ storeCalls FuncName.create_user, DbCall.isStoreCall call = true) := by
  have h := claim_C1 FuncName.create_user
  exact ⟨h.1, h.2.1 (by decide)⟩

/-- Claim C9: the document create_blog_post passes to create_document goes to
the posts collection, its slug is the title lowercased with every space
replaced by a dash, its tags are the given list when one is provided and
the empty list when tags is None, its status is "draft", and its view_count
and likes are 0. -/
theorem claim_C9 : ∀ (title content author_id : String) (tags : Option (List Value)),
    (create_blog_post title content author_id tags).1 = "posts" ∧
    lookupField (create_blog_post title content author_id tags).2 "slug" =
      some (Value.vStr ((title.toLower).replace " " "-")) ∧
    (∀ l, tags = some l →
      lookupField (create_blog_post title content author_id tags).2 "tags" =
        some (Value.vList l)) ∧
    (tags = none →
      lookupField (create_blog_post title content author_id tags).2 "tags" =
        some (Value.vList [])) ∧
    lookupField (create_blog_post title content author_id tags).2 "status" =
      some (Value.vStr "draft") ∧
    lookupField (create_blog_post title content author_id tags).2 "view_count" =
      some (Value.vNum 0) ∧
    lookupField (create_blog_post title content author_id tags).2 "likes" =
      some (Value.vNum 0) := by
  intro title content author_id tags
  refine ⟨rfl, rfl, ?_, ?_, rfl, rfl, rfl⟩
  · rintro l rfl
    show some (Value.vList (pyOrList (some l) [])) = some (Value.vList l)
    rw [pyOrList_some_nil_default]
  · rintro rfl
    rfl

/-- Claim C9 witness: the tags conjuncts evaluated at a provided tag list and
at an absent one. -/
theorem claim_C9_witness :
    lookupField (create_blog_post "My Post" "c" "a" (some [Value.vStr "t"])).2 "tags" =
      some (Value.vList [Value.vStr "t"]) ∧
    lookupField (create_blog_post "My Post" "c" "a" none).2 "tags" =
      some (Value.vList []) :=
  ⟨(claim_C9 "My Post" "c" "a" (some [Value.vStr "t"])).2.2.1 [Value.vStr "t"] rfl,
   (claim_C9 "My Post" "c" "a" none).2.2.2.1 rfl⟩

/-- Claim C10: the document create_project passes to create_document goes to
the projects collection and its members field is the one-element list
holding the owner, so the owner is always a member of a new project. -/
theorem claim_C10 : ∀ (name description owner_id : String),
    (create_project name description owner_id).1 = "projects" ∧
    lookupField (create_project name description owner_id).2 "members" =
      some (Value.vList [Value.vStr owner_id]) := by
  intro name description owner_id
  exact ⟨rfl, rfl⟩

/-- Claim C2: get_user_by_email returns none exactly when the underlying
get_documents query on the users collection returns the empty sequence, and
otherwise returns the first document of that sequence; it is a total
function, so an empty result never raises. -/
theorem claim_C2 : ∀ (email : String) (st : Store),
    (get_user_by_email email st = none ↔
      get_documents "users" [("email", Value.vStr email)] st = []) ∧
    (∀ d rest, get_documents "users" [("email", Value.vStr email)] st = d :: rest →
      get_user_by_email email st = some d) := by
  intro email st
  simp only [get_user_by_email]
  cases hq : get_documents "users" [("email", Value.vStr email)] st with
  | nil => simp
  | cons u us =>
    refine ⟨by simp, ?_⟩
    intro d rest h
    obtain ⟨h1, h2⟩ := List.cons_eq_cons.mp h
    simp [h1]

/-- Claim C2 witness: the claim evaluated on a store holding one matching
user. -/
theorem claim_C2_witness :
    (get_user_by_email "a@b.c"
        (create_document "users" [("email", Value.vStr "a@b.c")] store0).2 = none ↔
      get_documents "users" [("email", Value.vStr "a@b.c")]
        (create_document "users" [("email", Value.vStr "a@b.c")] store0).2 = []) ∧
    get_user_by_email "a@b.c"
        (create_document "users" [("email", Value.vStr "a@b.c")] store0).2 =
      some [("id", idOf 0), ("email", Value.vStr "a@b.c")] :=
  ⟨(claim_C2 "a@b.c" _).1,
   (claim_C2 "a@b.c" _).2 [("id", idOf 0), ("email", Value.vStr "a@b.c")] [] rfl⟩

/-- Claim C7: update_document and delete_document on an identifier that names
no document of the collection return false and leave the store unchanged;
being total functions, they raise no exception and no NotFoundError. -/
theorem claim_C7 : ∀ (st : Store) (c : String) (i : Value) (patch : Doc),
    (∀ d ∈ collOf st.colls c, d.1 ≠ i) →
    update_document c i patch st = (false, st) ∧
    delete_document c i st = (false, st) := by
  intro st c i patch h
  have hbeq : ∀ d ∈ collOf st.colls c, Value.beq d.1 i = false := by
    intro d hd
    cases hb : Value.beq d.1 i
    · rfl
    · exact absurd (Value.eq_of_beq hb) (h d hd)
  refine ⟨update_document_absent hbeq, delete_document_of_not_any ?_⟩
  intro hA
  obtain ⟨d, hd, hbd⟩ := List.any_eq_true.mp hA
  rw [hbeq d hd] at hbd
  simp at hbd

/-- Claim C7 witness: both operations on the empty store. -/
theorem claim_C7_witness :
    update_document "users" (idOf 0) [] store0 = (false, store0) ∧
    delete_document "users" (idOf 0) store0 = (false, store0) :=
  claim_C7 store0 "users" (idOf 0) []
    (by intro d hd; simp [store0, collOf] at hd)

/-- Claim C5: after a delete_document call that returns true, querying the
collection for that identifier yields the empty sequence, and a second
delete_document of the same identifier returns false. -/
theorem claim_C5 : ∀ (st : Store) (c : String) (i : Value),
    (delete_document c i st).1 = true →
    get_documents c [("id", i)] (delete_document c i st).2 = [] ∧
    (delete_document c i (delete_document c i st).2).1 = false := by
  intro st c i h
  by_cases hb : (collOf st.colls c).any (fun d => Value.beq d.1 i) = true
  · have h2 : (delete_document c i st).2 =
        ⟨setColl st.colls c ((collOf st.colls c).filter (fun d => !Value.beq d.1 i)),
         st.nextId⟩ := by
      rw [delete_document_of_any hb]
    rw [h2]
    constructor
    · rw [get_documents_id]
      show ((collOf (setColl st.colls c
          ((collOf st.colls c).filter (fun d => !Value.beq d.1 i))) c).filter
            (fun d => Value.beq d.1 i)).map render = []
      rw [collOf_setColl_same, filter_after_delete]
      rfl
    · have hnot : ¬ ((collOf (setColl st.colls c
          ((collOf st.colls c).filter (fun d => !Value.beq d.1 i))) c).any
            (fun d => Value.beq d.1 i) = true) := by
        rw [collOf_setColl_same, any_after_delete]
        simp
      rw [delete_document_of_not_any hnot]
  · rw [delete_document_of_not_any hb] at h
    simp at h

/-- Claim C5 witness: deleting the one created document empties the
collection and a second delete returns false. -/
theorem claim_C5_witness :
    get_documents "users" [("id", idOf 0)]
      (delete_document "users" (idOf 0)
        (create_document "users" [] store0).2).2 = [] ∧
    (delete_document "users" (idOf 0)
      (delete_document "users" (idOf 0)
        (create_document "users" [] store0).2).2).1 = false :=
  claim_C5 (create_document "users" [] store0).2 "users" (idOf 0) rfl

theorem lookupField_cons (k' : String) (v' : Value) (d : Doc) (k : String) :
    lookupField ((k', v') :: d) k = if k' = k then some v' else lookupField d k := rfl

/-- Claim C4: update_document on an existing identifier succeeds and merges
exactly the patch: the first document then returned for that identifier has
every patched key at its patch value and every key outside the patch at its
prior value.  The reserved system key "id" is not patched. -/
theorem claim_C4 : ∀ (st : Store) (c : String) (i : Value) (patch : Doc)
    (d₀ : Doc) (rest : List Doc),
    lookupField patch "id" = none →
    get_documents c [("id", i)] st = d₀ :: rest →
    (update_document c i patch st).1 = true ∧
    ∃ d₁ rest₁,
      get_documents c [("id", i)] (update_document c i patch st).2 = d₁ :: rest₁ ∧
      (∀ k v, lookupField patch k = some v → lookupField d₁ k = some v) ∧
      (∀ k, lookupField patch k = none → lookupField d₁ k = lookupField d₀ k) := by
  intro st c i patch d₀ rest hno hget
  rw [get_documents_id] at hget
  cases hf : (collOf st.colls c).filter (fun d => Value.beq d.1 i) with
  | nil =>
    rw [hf] at hget
    simp at hget
  | cons e es =>
    rw [hf] at hget
    simp only [List.map_cons] at hget
    obtain ⟨h1, h2⟩ := List.cons_eq_cons.mp hget
    obtain ⟨l', hl1, hl2⟩ := updateFirst_filter_cons i patch _ e es hf
    have hupd := update_document_of_updateFirst hl1
    have hu1 : (update_document c i patch st).1 = true := by rw [hupd]
    have hu2 : (update_document c i patch st).2 = ⟨setColl st.colls c l', st.nextId⟩ := by
      rw [hupd]
    refine ⟨hu1, render (e.1, mergePatch e.2 patch), es.map render, ?_, ?_, ?_⟩
    · rw [hu2, get_documents_id]
      show ((collOf (setColl st.colls c l') c).filter (fun d => Value.beq d.1 i)).map render = _
      rw [collOf_setColl_same, hl2, List.map_cons]
    · intro k v hkv
      have hkid : ¬ ("id" = k) := by
        intro he
        rw [← he, hno] at hkv
        simp at hkv
      show lookupField (("id", e.1) :: (patch ++ e.2)) k = some v
      rw [lookupField_cons, if_neg hkid]
      exact lookupField_append_some e.2 hkv
    · intro k hk
      rw [← h1]
      show lookupField (("id", e.1) :: (patch ++ e.2)) k =
        lookupField (("id", e.1) :: e.2) k
      rw [lookupField_cons, lookupField_cons]
      by_cases hkid : "id" = k
      · rw [if_pos hkid, if_pos hkid]
      · rw [if_neg hkid, if_neg hkid]
        exact lookupField_append_none e.2 hk

/-- Claim C4 witness: patching the "x" field of the one created document
changes "x" and preserves "y" and "id". -/
theorem claim_C4_witness :
    (update_document "tasks" (idOf 0) [("x", Value.vNum 1)]
      (create_document "tasks" [("x", Value.vNum 0), ("y", Value.vStr "a")] store0).2).1 =
      true ∧
    ∃ d₁ rest₁,
      get_documents "tasks" [("id", idOf 0)]
        (update_document "tasks" (idOf 0) [("x", Value.vNum 1)]
          (create_document "tasks" [("x", Value.vNum 0), ("y", Value.vStr "a")] store0).2).2 =
        d₁ :: rest₁ ∧
      (∀ k v, lookupField [("x", Value.vNum 1)] k = some v → lookupField d₁ k = some v) ∧
      (∀ k, lookupField [("x", Value.vNum 1)] k = none →
        lookupField d₁ k =
          lookupField [("id", idOf 0), ("x", Value.vNum 0), ("y", Value.vStr "a")] k) :=
  claim_C4 _ "tasks" (idOf 0) [("x", Value.vNum 1)]
    [("id", idOf 0), ("x", Value.vNum 0), ("y", Value.vStr "a")] [] rfl rfl

/-- Claim C3: along any sequence of store operations starting from the empty
store, the identifiers returned by create_document for any one collection
are pairwise distinct: an identifier is never reused within a collection. -/
theorem claim_C3 : ∀ (ops : List StoreOp) (c : String),
    (createdIdsIn c (runOps ops store0).2).Nodup :=
  fun ops c => runOps_created_nodup ops store0 c

/-- Claim C6: after any run from the empty store, get_documents with the empty
filter returns exactly the documents ever created in the collection minus
those removed by a successful delete_document: an identifier occurs among
the results precisely when a create on that collection returned it and no
successful delete removed it. -/
theorem claim_C6 : ∀ (ops : List StoreOp) (c : String) (i : Value),
    (∃ d ∈ get_documents c [] (runOps ops store0).1, lookupField d "id" = some i) ↔
      (Event.created c i ∈ (runOps ops store0).2 ∧
        Event.deleted c i ∉ (runOps ops store0).2) := by
  intro ops c i
  rw [mem_get_documents_nil_iff]
  rw [runOps_mem_iff ops store0 bounded_store0 c i]
  have h0 : collIds store0 c = [] := rfl
  rw [h0]
  simp

/-- Claim C8: when every item carries numeric price and quantity fields, the
document create_order passes to create_document has total_amount equal to
the sum over the items of price times quantity (0 for no items) and status
equal to "pending". -/
theorem claim_C8 : ∀ (user_id : String) (items : List Value) (shipping_address : Value)
    (nowStr : String),
    (∀ it ∈ items, (itemCost it).isSome = true) →
    ∃ doc, create_order user_id items shipping_address nowStr = some ("orders", doc) ∧
      lookupField doc "total_amount" =
        some (Value.vNum ((items.map (fun it => (itemCost it).getD 0)).sum)) ∧
      lookupField doc "status" = some (Value.vStr "pending") := by
  intro u items s n h
  have ht := orderTotal_eq_sum items h
  simp only [create_order, ht]
  exact ⟨_, rfl, rfl, rfl⟩

/-- Claim C8 witness: one item with price 2 and quantity 3. -/
theorem claim_C8_witness :
    ∃ doc, create_order "u"
        [Value.vDoc [("price", Value.vNum 2), ("quantity", Value.vNum 3)]]
        Value.vNull "ts" = some ("orders", doc) ∧
      lookupField doc "total_amount" =
        some (Value.vNum (([Value.vDoc [("price", Value.vNum 2), ("quantity", Value.vNum 3)]].map
          (fun it => (itemCost it).getD 0)).sum)) ∧
      lookupField doc "status" = some (Value.vStr "pending") :=
  claim_C8 "u" [Value.vDoc [("price", Value.vNum 2), ("quantity", Value.vNum 3)]]
    Value.vNull "ts" (by decide)
